import Mathlib

/-!
Verification of the composite device controller of InputPlumber
(src/input/composite_device/mod.rs), as a shallow embedding in Lean.

Rust `Vec` fields are modelled as `List`, `HashSet`/`BTreeSet` fields as
`List` kept duplicate-free by the operations that the code performs on
them, and `HashMap` fields as association lists.  `Vec::remove(position)`
is modelled by `lerase` below, which removes the first occurrence of an
element, exactly like the `iter().position()` / `remove(idx)` pattern used
throughout the source.
-/

namespace InputPlumber

/-- Removal of the first occurrence of an element from a list; this is the
`iter().position(..)` + `Vec::remove(idx)` pattern of the source (and the
behaviour of `HashSet::remove` / `BTreeSet::remove` on our duplicate-free
lists). -/
def lerase [DecidableEq α] : List α → α → List α
  | [], _ => []
  | x :: xs, a => if x = a then xs else x :: lerase xs a

theorem lerase_of_not_mem [DecidableEq α] {l : List α} {a : α} (h : a ∉ l) :
    lerase l a = l := by
  induction l with
  | nil => rfl
  | cons x xs ih =>
    simp only [List.mem_cons, not_or] at h
    simp [lerase, Ne.symm h.1, ih h.2]

theorem length_lerase_of_mem [DecidableEq α] {l : List α} {a : α} (h : a ∈ l) :
    (lerase l a).length + 1 = l.length := by
  induction l with
  | nil => cases h
  | cons x xs ih =>
    by_cases hx : x = a
    · simp [lerase, hx]
    · have hmem : a ∈ xs := by
        rcases List.mem_cons.mp h with h1 | h1
        · exact absurd h1.symm hx
        · exact h1
      simp [lerase, hx, ih hmem]

theorem lerase_subset [DecidableEq α] {l : List α} {a b : α}
    (h : b ∈ lerase l a) : b ∈ l := by
  induction l with
  | nil => cases h
  | cons x xs ih =>
    by_cases hx : x = a
    · simp only [lerase, if_pos hx] at h
      exact List.mem_cons_of_mem _ h
    · simp only [lerase, if_neg hx, List.mem_cons] at h
      rcases h with h | h
      · exact List.mem_cons.mpr (Or.inl h)
      · exact List.mem_cons_of_mem _ (ih h)

theorem nodup_lerase [DecidableEq α] {l : List α} {a : α} (h : l.Nodup) :
    (lerase l a).Nodup := by
  induction l with
  | nil => exact h
  | cons x xs ih =>
    rcases List.nodup_cons.mp h with ⟨hx, hxs⟩
    by_cases hxa : x = a
    · simpa [lerase, hxa] using hxs
    · simp only [lerase, if_neg hxa]
      exact List.nodup_cons.mpr ⟨fun hmem => hx (lerase_subset hmem), ih hxs⟩

theorem mem_lerase_of_nodup [DecidableEq α] {l : List α} {a b : α} (h : l.Nodup) :
    b ∈ lerase l a ↔ b ∈ l ∧ b ≠ a := by
  induction l with
  | nil => simp [lerase]
  | cons x xs ih =>
    rcases List.nodup_cons.mp h with ⟨hx, hxs⟩
    by_cases hxa : x = a
    · subst hxa
      simp only [lerase, if_pos rfl, List.mem_cons]
      constructor
      · intro hb
        exact ⟨Or.inr hb, fun hba => hx (hba ▸ hb)⟩
      · rintro ⟨hb | hb, hne⟩
        · exact absurd hb hne
        · exact hb
    · simp only [lerase, if_neg hxa, List.mem_cons, ih hxs]
      constructor
      · rintro (h1 | ⟨h1, h2⟩)
        · exact ⟨Or.inl h1, h1 ▸ hxa⟩
        · exact ⟨Or.inr h1, h2⟩
      · rintro ⟨h1 | h1, h2⟩
        · exact Or.inl h1
        · exact Or.inr ⟨h1, h2⟩

/-! ### Capabilities and native events

`Capability` mirrors `input/capability.rs` (not under `src/`; the variants
are those named by the spec and used by `mod.rs`: keyboard keys, gamepad
buttons/axes/triggers/accelerometer/gyro, mouse motion/buttons, touchpad,
DBus actions, `Sync`, `None` and the sentinel `NotImplemented`).
Concrete key/axis payloads are abstracted as `Nat` indices, which
preserves decidable equality, the only operation `mod.rs` performs. -/

inductive GamepadButton
  | guide | south | east | north | west | leftBumper | rightBumper | start | select
  deriving DecidableEq, Repr

inductive GamepadInput
  | button (b : GamepadButton)
  | axis (n : Nat)
  | trigger (n : Nat)
  | accelerometer
  | gyro
  deriving DecidableEq, Repr

inductive MouseInput
  | motion
  | button (n : Nat)
  deriving DecidableEq, Repr

inductive Capability
  | capNone
  | notImplemented
  | sync
  | keyboard (k : Nat)
  | gamepad (g : GamepadInput)
  | mouse (m : MouseInput)
  | dbus (n : Nat)
  | touchpad (n : Nat)
  deriving DecidableEq, Repr

/-- Modelled from the spec: `NativeEvent` values have variant
`Bool | Axis2D | AxisF | None` (§3); the axis payloads are abstracted. -/
inductive InputValue
  | bool (b : Bool)
  | axis2d (x y : Int)
  | axisF (v : Int)
  | nothing
  deriving DecidableEq, Repr

/-- Modelled from the spec: a `NativeEvent` carries a capability and an
input value (§3).  The source-capability bookkeeping of
`NativeEvent::new_translated` is not observable by any claim and is
omitted. -/
structure NativeEvent where
  cap : Capability
  value : InputValue
  deriving DecidableEq, Repr

inductive InterceptMode
  | modeNone
  | modePass
  | modeAlways
  deriving DecidableEq, Repr

/-- Source device identifiers: `evdev://<name>`, `hidraw://<name>` or
`iio://<name>` (spec §6; `mod.rs` dispatches on exactly these three
schemes in `on_source_device_removed`). -/
inductive SourceId
  | evdev (name : String)
  | hidraw (name : String)
  | iio (name : String)
  deriving DecidableEq, Repr

/-- Modelled from the spec: `SourceDevice::get_device_path` (outside
`src/`) derives the kernel path from the source id per the table of §6.
The same three formulas are written out in-source in
`on_source_device_removed` (mod.rs:1307,1321,1335). -/
def devicePath : SourceId → String
  | .evdev n => "/dev/input/" ++ n
  | .hidraw n => "/dev/" ++ n
  | .iio n => "/sys/bus/iio/devices/" ++ n

/-! ### Force-feedback broker (mod.rs `process_output_event`)

`ff_effect_ids : BTreeSet<i16>` is modelled as a duplicate-free
`List Int` together with `btMin` (the `iter().next()` of a `BTreeSet`,
i.e. its smallest element) and `btInsert` (insert if absent).
`ff_effect_id_source_map : HashMap<i16, HashMap<String, i16>>` is an
association list from effect id to the per-source effect ids. -/

def btMin : List Int → Option Int
  | [] => none
  | x :: xs =>
    match btMin xs with
    | none => some x
    | some y => some (min x y)

def btInsert (x : Int) (l : List Int) : List Int :=
  if x ∈ l then l else x :: l

abbrev FFSourceMap := List (SourceId × Int)

structure FFState where
  ff_effect_ids : List Int
  ff_effect_id_source_map : List (Int × FFSourceMap)
  deriving DecidableEq, Repr

/-- Keys of `ff_effect_id_source_map`. -/
def ffKeys (s : FFState) : List Int :=
  s.ff_effect_id_source_map.map Prod.fst

/-- The `HashMap::get` operation on the effect-id map. -/
def ffMapGet (m : List (Int × FFSourceMap)) (k : Int) : Option FFSourceMap :=
  (m.find? (fun p => decide (p.1 = k))).map Prod.snd

/-- The `HashMap::remove` operation on the effect-id map: drops the entry with the
given key (the operations below never create duplicate keys). -/
def ffMapRemove : List (Int × FFSourceMap) → Int → List (Int × FFSourceMap)
  | [], _ => []
  | p :: t, k => if p.1 = k then ffMapRemove t k else p :: ffMapRemove t k

/-- The `HashMap::insert` operation on the effect-id map (replaces any existing entry). -/
def ffMapInsert (m : List (Int × FFSourceMap)) (k : Int) (v : FFSourceMap) :
    List (Int × FFSourceMap) :=
  (k, v) :: ffMapRemove m k

/-- Handling of `UinputOutputEvent::FFUpload` (mod.rs:639-707).  The
per-source upload round-trips are external I/O; their collected outcome
`source_effect_ids` is taken as the argument `srcIds`.  Channel sends are
assumed to succeed.  Returns the new state together with the list of
replies sent on the target's return channel, in order.  Note that when
`srcIds` is empty the code sends `None` but does NOT return: it falls
through to the allocation below (the missing early return). -/
def ffUpload (s : FFState) (id : Int) (srcIds : FFSourceMap) :
    FFState × List (Option Int) :=
  match ffMapGet s.ff_effect_id_source_map id with
  | some _ => (s, [some id])
  | none =>
    let emptyReply : List (Option Int) := if srcIds.isEmpty then [none] else []
    match btMin s.ff_effect_ids with
    | some v =>
      ({ ff_effect_ids := lerase s.ff_effect_ids v,
         ff_effect_id_source_map := ffMapInsert s.ff_effect_id_source_map v srcIds },
       emptyReply ++ [some v])
    | none => (s, emptyReply ++ [none])

/-- Handling of `UinputOutputEvent::FFErase` (mod.rs:708-744).  The
per-source erase round-trips are external I/O with no state effect;
the state update inserts the id into the free pool and removes the map
entry. -/
def ffErase (s : FFState) (id : Int) : FFState :=
  { ff_effect_ids := btInsert id s.ff_effect_ids,
    ff_effect_id_source_map := ffMapRemove s.ff_effect_id_source_map id }

/-- A `ProcessOutputEvent` force-feedback command as seen by the broker:
the effect id is supplied by the target device, and for uploads the
environment additionally determines which sources accepted the effect. -/
inductive FFCmd
  | upload (id : Int) (srcIds : FFSourceMap)
  | erase (id : Int)
  deriving DecidableEq, Repr

def ffStep (s : FFState) : FFCmd → FFState
  | .upload id srcIds => (ffUpload s id srcIds).1
  | .erase id => ffErase s id

def ffRun (s : FFState) (cmds : List FFCmd) : FFState :=
  cmds.foldl ffStep s

/-- The list `(0..64).collect()`: the initial free pool (mod.rs:204). -/
def intRange (n : Nat) : List Int :=
  (List.range n).map (fun (k : Nat) => (k : Int))

/-- Initial broker state from `CompositeDevice::new` (mod.rs:204-205). -/
def ffInit : FFState :=
  { ff_effect_ids := intRange 64, ff_effect_id_source_map := [] }


theorem btMin_mem : ∀ {l : List Int} {v : Int}, btMin l = some v → v ∈ l := by
  intro l
  induction l with
  | nil => intro v h; cases h
  | cons x xs ih =>
    intro v h
    simp only [btMin] at h
    cases hm : btMin xs with
    | none =>
      rw [hm] at h
      have hx : x = v := by injection h
      exact hx ▸ List.mem_cons_self x xs
    | some y =>
      rw [hm] at h
      have hv : min x y = v := by injection h
      rcases min_choice x y with hc | hc
      · have hx : x = v := by rw [← hv, hc]
        exact List.mem_cons.mpr (Or.inl hx.symm)
      · have hy : y = v := by rw [← hv, hc]
        exact List.mem_cons.mpr (Or.inr (ih (hy ▸ hm)))

theorem mem_keys_ffMapRemove {m : List (Int × FFSourceMap)} {k i : Int} :
    i ∈ (ffMapRemove m k).map Prod.fst ↔ i ∈ m.map Prod.fst ∧ i ≠ k := by
  induction m with
  | nil => simp [ffMapRemove]
  | cons p t ih =>
    by_cases hp : p.1 = k
    · simp only [ffMapRemove, if_pos hp, List.map_cons, List.mem_cons, ih]
      constructor
      · rintro ⟨h1, h2⟩
        exact ⟨Or.inr h1, h2⟩
      · rintro ⟨h1 | h1, h2⟩
        · exact absurd (h1.trans hp) h2
        · exact ⟨h1, h2⟩
    · simp only [ffMapRemove, if_neg hp, List.map_cons, List.mem_cons, ih]
      constructor
      · rintro (h1 | ⟨h1, h2⟩)
        · exact ⟨Or.inl h1, h1 ▸ hp⟩
        · exact ⟨Or.inr h1, h2⟩
      · rintro ⟨h1 | h1, h2⟩
        · exact Or.inl h1
        · exact Or.inr ⟨h1, h2⟩

theorem ffMapRemove_of_not_mem {m : List (Int × FFSourceMap)} {k : Int}
    (h : k ∉ m.map Prod.fst) : ffMapRemove m k = m := by
  induction m with
  | nil => rfl
  | cons p t ih =>
    simp only [List.map_cons, List.mem_cons, not_or] at h
    simp only [ffMapRemove, ih h.2]
    rw [if_neg (fun hpk => h.1 hpk.symm)]

theorem nodup_keys_ffMapRemove {m : List (Int × FFSourceMap)} {k : Int}
    (hnd : (m.map Prod.fst).Nodup) : ((ffMapRemove m k).map Prod.fst).Nodup := by
  induction m with
  | nil => exact hnd
  | cons p t ih =>
    simp only [List.map_cons, List.nodup_cons] at hnd
    by_cases hp : p.1 = k
    · simpa only [ffMapRemove, if_pos hp] using ih hnd.2
    · simp only [ffMapRemove, if_neg hp, List.map_cons, List.nodup_cons]
      exact ⟨fun hmem => hnd.1 (mem_keys_ffMapRemove.mp hmem).1, ih hnd.2⟩

theorem length_ffMapRemove_of_mem {m : List (Int × FFSourceMap)} {k : Int}
    (hnd : (m.map Prod.fst).Nodup) (hk : k ∈ m.map Prod.fst) :
    (ffMapRemove m k).length + 1 = m.length := by
  induction m with
  | nil => cases hk
  | cons p t ih =>
    simp only [List.map_cons, List.nodup_cons] at hnd
    by_cases hp : p.1 = k
    · have ht : ffMapRemove t k = t := ffMapRemove_of_not_mem (hp ▸ hnd.1)
      simp [ffMapRemove, if_pos hp, ht]
    · have hkt : k ∈ t.map Prod.fst := by
        rw [List.map_cons] at hk
        rcases List.mem_cons.mp hk with h1 | h1
        · exact absurd h1.symm hp
        · exact h1
      have hlen := ih hnd.2 hkt
      simp only [ffMapRemove, if_neg hp, List.length_cons]
      omega

theorem ffUpload_known {s : FFState} {id : Int} {vs : FFSourceMap}
    (srcIds : FFSourceMap)
    (hget : ffMapGet s.ff_effect_id_source_map id = some vs) :
    ffUpload s id srcIds = (s, [some id]) := by
  unfold ffUpload
  rw [hget]

theorem ffUpload_alloc {s : FFState} {id v : Int} (srcIds : FFSourceMap)
    (hget : ffMapGet s.ff_effect_id_source_map id = none)
    (hmin : btMin s.ff_effect_ids = some v) :
    ffUpload s id srcIds =
      ({ ff_effect_ids := lerase s.ff_effect_ids v,
         ff_effect_id_source_map := ffMapInsert s.ff_effect_id_source_map v srcIds },
       (if srcIds.isEmpty then [none] else []) ++ [some v]) := by
  unfold ffUpload
  rw [hget, hmin]

theorem ffUpload_poolEmpty {s : FFState} {id : Int} (srcIds : FFSourceMap)
    (hget : ffMapGet s.ff_effect_id_source_map id = none)
    (hmin : btMin s.ff_effect_ids = none) :
    ffUpload s id srcIds =
      (s, (if srcIds.isEmpty then [none] else []) ++ [none]) := by
  unfold ffUpload
  rw [hget, hmin]

/-- Well-formedness of the broker state: the free pool and the map keys
are duplicate-free, bounded by the initial pool `0..64`, partition that
range, and together count 64 ids. -/
def ffWF (s : FFState) : Prop :=
  s.ff_effect_ids.Nodup ∧ (ffKeys s).Nodup ∧
  (∀ i ∈ s.ff_effect_ids, 0 ≤ i ∧ i < 64) ∧
  (∀ i ∈ ffKeys s, 0 ≤ i ∧ i < 64) ∧
  (∀ i : Int, 0 ≤ i → i < 64 → (i ∈ s.ff_effect_ids ↔ i ∉ ffKeys s)) ∧
  s.ff_effect_ids.length + s.ff_effect_id_source_map.length = 64

theorem ffWF_upload {s : FFState} (h : ffWF s) (id : Int) (srcIds : FFSourceMap) :
    ffWF (ffUpload s id srcIds).1 := by
  obtain ⟨hnd1, hnd2, hb1, hb2, hiff, hlen⟩ := h
  cases hget : ffMapGet s.ff_effect_id_source_map id with
  | some vs =>
    rw [ffUpload_known srcIds hget]
    exact ⟨hnd1, hnd2, hb1, hb2, hiff, hlen⟩
  | none =>
    cases hmin : btMin s.ff_effect_ids with
    | none =>
      rw [ffUpload_poolEmpty srcIds hget hmin]
      exact ⟨hnd1, hnd2, hb1, hb2, hiff, hlen⟩
    | some v =>
      rw [ffUpload_alloc srcIds hget hmin]
      have hvmem : v ∈ s.ff_effect_ids := btMin_mem hmin
      have hvb : 0 ≤ v ∧ v < 64 := hb1 v hvmem
      have hvk : v ∉ ffKeys s := (hiff v hvb.1 hvb.2).mp hvmem
      have hrem : ffMapRemove s.ff_effect_id_source_map v
          = s.ff_effect_id_source_map := ffMapRemove_of_not_mem hvk
      unfold ffWF ffKeys ffMapInsert
      dsimp only
      rw [hrem]
      refine ⟨nodup_lerase hnd1, ?_, ?_, ?_, ?_, ?_⟩
      · rw [List.map_cons]
        exact List.nodup_cons.mpr ⟨hvk, hnd2⟩
      · intro i hi
        exact hb1 i (lerase_subset hi)
      · intro i hi
        rw [List.map_cons] at hi
        rcases List.mem_cons.mp hi with hi | hi
        · exact hi ▸ hvb
        · exact hb2 i hi
      · intro i h0 h1
        rw [mem_lerase_of_nodup hnd1, List.map_cons]
        simp only [List.mem_cons, not_or]
        constructor
        · rintro ⟨hmem, hne⟩
          exact ⟨hne, (hiff i h0 h1).mp hmem⟩
        · rintro ⟨hne, hnk⟩
          exact ⟨(hiff i h0 h1).mpr hnk, hne⟩
      · have hl := length_lerase_of_mem hvmem
        rw [List.length_cons]
        omega

theorem ffWF_erase {s : FFState} (h : ffWF s) {id : Int}
    (h0 : 0 ≤ id) (h1 : id < 64) : ffWF (ffErase s id) := by
  obtain ⟨hnd1, hnd2, hb1, hb2, hiff, hlen⟩ := h
  by_cases hmem : id ∈ s.ff_effect_ids
  · have hnk : id ∉ ffKeys s := (hiff id h0 h1).mp hmem
    have hins : btInsert id s.ff_effect_ids = s.ff_effect_ids := by
      simp [btInsert, hmem]
    have hfil : ffMapRemove s.ff_effect_id_source_map id
        = s.ff_effect_id_source_map := ffMapRemove_of_not_mem hnk
    unfold ffErase
    rw [hins, hfil]
    exact ⟨hnd1, hnd2, hb1, hb2, hiff, hlen⟩
  · have hk : id ∈ ffKeys s := by
      by_contra hnk
      exact hmem ((hiff id h0 h1).mpr hnk)
    have hins : btInsert id s.ff_effect_ids = id :: s.ff_effect_ids := by
      simp [btInsert, hmem]
    unfold ffErase ffWF ffKeys
    dsimp only
    rw [hins]
    refine ⟨?_, ?_, ?_, ?_, ?_, ?_⟩
    · exact List.nodup_cons.mpr ⟨hmem, hnd1⟩
    · exact nodup_keys_ffMapRemove hnd2
    · intro i hi
      rcases List.mem_cons.mp hi with hi | hi
      · exact hi ▸ ⟨h0, h1⟩
      · exact hb1 i hi
    · intro i hi
      exact hb2 i (mem_keys_ffMapRemove.mp hi).1
    · intro i hi0 hi1
      rw [mem_keys_ffMapRemove]
      simp only [List.mem_cons, not_and, not_not]
      by_cases hid : i = id
      · subst hid
        constructor
        · intro _ _
          rfl
        · intro _
          exact Or.inl rfl
      · simp only [hid, false_or]
        rw [hiff i hi0 hi1]
        constructor
        · intro hnki hki
          exact hnki hki
        · intro himp hki
          exact himp hki
    · have hl := length_ffMapRemove_of_mem hnd2 hk
      rw [List.length_cons]
      omega

/-- Commands whose erase ids lie in the initial virtual-id pool `0..64`. -/
def eraseInRangeB : FFCmd → Bool
  | .erase id => decide (0 ≤ id ∧ id < 64)
  | .upload _ _ => true

theorem ffWF_run {s : FFState} (h : ffWF s) (cmds : List FFCmd)
    (hc : ∀ c ∈ cmds, eraseInRangeB c = true) : ffWF (ffRun s cmds) := by
  induction cmds generalizing s with
  | nil => exact h
  | cons c cs ih =>
    have hc0 := hc c (List.mem_cons_self c cs)
    have hstep : ffWF (ffStep s c) := by
      cases c with
      | upload id srcIds => exact ffWF_upload h id srcIds
      | erase id =>
        simp only [eraseInRangeB, decide_eq_true_eq] at hc0
        exact ffWF_erase h hc0.1 hc0.2
    exact ih hstep (fun c' hc' => hc c' (List.mem_cons_of_mem _ hc'))

theorem mem_intRange {n : Nat} {i : Int} :
    i ∈ intRange n ↔ 0 ≤ i ∧ i < (n : Int) := by
  unfold intRange
  rw [List.mem_map]
  constructor
  · rintro ⟨k, hk, rfl⟩
    rw [List.mem_range] at hk
    omega
  · rintro ⟨h0, h1⟩
    refine ⟨i.toNat, ?_, ?_⟩
    · rw [List.mem_range]
      omega
    · omega

theorem nodup_intRange (n : Nat) : (intRange n).Nodup := by
  unfold intRange
  exact List.Nodup.map (fun a b hab => by exact_mod_cast hab) (List.nodup_range n)

theorem length_intRange (n : Nat) : (intRange n).length = n := by
  unfold intRange
  rw [List.length_map, List.length_range]

theorem ffInit_WF : ffWF ffInit := by
  refine ⟨nodup_intRange 64, List.nodup_nil, ?_, ?_, ?_, ?_⟩
  · intro i hi
    have hm := mem_intRange.mp hi
    exact ⟨hm.1, by exact_mod_cast hm.2⟩
  · intro i hi
    cases hi
  · intro i h0 h1
    simp only [ffKeys, ffInit, List.map_nil, List.not_mem_nil, not_false_eq_true,
      iff_true]
    exact mem_intRange.mpr ⟨h0, by exact_mod_cast h1⟩
  · show (intRange 64).length + ([] : List (Int × FFSourceMap)).length = 64
    rw [length_intRange]
    rfl

/-- The part of the broker invariant that claim C3 states: the free pool
and the used map together account for all 64 virtual ids, and an id of
the virtual-id space is free exactly when it is not mapped. -/
def ffInvariant (s : FFState) : Prop :=
  s.ff_effect_ids.length + s.ff_effect_id_source_map.length = 64 ∧
  ∀ i : Int, 0 ≤ i → i < 64 → (i ∈ s.ff_effect_ids ↔ i ∉ ffKeys s)

set_option maxRecDepth 8000 in
/-- Claim C1 (code bug evidence): uploading an effect when no source
device accepted it (`source_effect_ids` empty) from the initial state
sends TWO replies — `None` followed by `Some 0` — and allocates virtual
id 0 with an empty per-source map, because the `source_effect_ids
.is_empty()` branch at mod.rs:692-695 sends `None` but is missing an
early return before the allocation at mod.rs:697-706.  This contradicts
the code's own comment ("don't bother allocating an effect id") and the
claim's "replies None ... allocates no virtual effect ID ... exactly one
reply is sent". -/
theorem C1_ff_upload_empty_eval :
    (ffUpload ffInit 0 []).2 = [none, some 0] ∧
    ffKeys (ffUpload ffInit 0 []).1 = [0] ∧
    ffMapGet (ffUpload ffInit 0 []).1.ff_effect_id_source_map 0 = some [] := by
  decide

set_option maxRecDepth 8000 in
/-- Claim C3 (counterexample): a single `FFErase` output event whose
target-supplied effect id is 64 — an id never in the initial pool —
inserts a fresh id into `ff_effect_ids`, so the reachable state after
`[erase 64]` has `|ff_effect_ids| + |ff_effect_id_source_map| = 65 ≠ 64`,
refuting the claimed invariant. -/
theorem C3_counterexample :
    ¬ ffInvariant (ffRun ffInit [FFCmd.erase 64]) :=
  fun h => absurd h.1 (by decide)

/-- Claim C3 (amended): the invariant holds at every state reachable by
upload and erase commands whose erase ids lie inside the virtual-id pool
`0..64`; an erase of an id outside that range grows the free pool and
breaks the count. -/
theorem C3_amended (cmds : List FFCmd)
    (h : ∀ c ∈ cmds, eraseInRangeB c = true) :
    ffInvariant (ffRun ffInit cmds) := by
  have hwf := ffWF_run ffInit_WF cmds h
  exact ⟨hwf.2.2.2.2.2, hwf.2.2.2.2.1⟩

set_option maxRecDepth 8000 in
theorem C3_amended_witness :
    (∀ c ∈ [FFCmd.upload 0 [(SourceId.evdev "event0", 2)], FFCmd.erase 0],
      eraseInRangeB c = true) ∧
    ffInvariant (ffRun ffInit
      [FFCmd.upload 0 [(SourceId.evdev "event0", 2)], FFCmd.erase 0]) :=
  ⟨by decide, C3_amended _ (by decide)⟩

/-! ### Emission routing (mod.rs `write_event`, lines 936-970) -/

def isDBusCap : Capability → Bool
  | .dbus _ => true
  | _ => false

/-- Embedding of `CompositeDevice::write_event`: given the current intercept mode and
the two target registries (represented by their DBus paths), compute the
list of `(path, event)` sends performed, in order.  Channel sends are
assumed to succeed. -/
def write_event (intercept_mode : InterceptMode)
    (target_devices target_dbus_devices : List String) (ev : NativeEvent) :
    List (String × NativeEvent) :=
  if isDBusCap ev.cap then
    target_dbus_devices.map (fun p => (p, ev))
  else if intercept_mode = InterceptMode.modeAlways then
    target_dbus_devices.map (fun p => (p, ev))
  else
    target_devices.map (fun p => (p, ev))

/-- Claim C5: routing of an emitted native event.  A `DBus(_)` event goes
to every `target_dbus_devices` entry and never to normal targets; a
non-DBus event in intercept mode `Always` likewise; any other event goes
to every `target_devices` entry.  The recipient list always equals one of
the two registries, so no emission step delivers to both, and in `Always`
mode nothing is delivered to `target_devices`. -/
theorem C5_write_event_routing (m : InterceptMode)
    (nt dt : List String) (ev : NativeEvent) :
    (isDBusCap ev.cap = true →
      write_event m nt dt ev = dt.map (fun p => (p, ev))) ∧
    (isDBusCap ev.cap = false → m = InterceptMode.modeAlways →
      write_event m nt dt ev = dt.map (fun p => (p, ev))) ∧
    (isDBusCap ev.cap = false → m ≠ InterceptMode.modeAlways →
      write_event m nt dt ev = nt.map (fun p => (p, ev))) ∧
    (m = InterceptMode.modeAlways →
      write_event m nt dt ev = dt.map (fun p => (p, ev))) ∧
    ((write_event m nt dt ev).map Prod.fst = dt ∨
      (write_event m nt dt ev).map Prod.fst = nt) := by
  refine ⟨?_, ?_, ?_, ?_, ?_⟩
  · intro h
    simp [write_event, h]
  · intro h hm
    simp [write_event, h, hm]
  · intro h hm
    simp [write_event, h, hm]
  · intro hm
    subst hm
    by_cases h : isDBusCap ev.cap = true
    · simp [write_event, h]
    · simp only [Bool.not_eq_true] at h
      simp [write_event, h]
  · unfold write_event
    split_ifs
    · left
      simp [Function.comp_def]
    · left
      simp [Function.comp_def]
    · right
      simp [Function.comp_def]

theorem C5_witness :
    write_event InterceptMode.modeAlways ["/target/gamepad0"] ["/target/dbus0"]
        ⟨Capability.gamepad (GamepadInput.button GamepadButton.south),
         InputValue.bool true⟩
      = [("/target/dbus0",
          ⟨Capability.gamepad (GamepadInput.button GamepadButton.south),
           InputValue.bool true⟩)] :=
  (C5_write_event_routing InterceptMode.modeAlways ["/target/gamepad0"]
    ["/target/dbus0"] _).2.2.2.1 rfl

/-! ### Controller loop error dispatch (mod.rs `run`, lines 300-442)

The match arms of the main loop decide, per command, whether a handler
error terminates the loop (`break 'main`) or is logged and skipped.  The
embedding records that decision for the six fallible `*Event*`
handlers. -/

inductive EventCommand
  | processEvent
  | processOutputEvent
  | writeEvent
  | writeChordEvent
  | writeSendEvent
  | handleEvent
  deriving DecidableEq, Repr

inductive HandlerOutcome
  | ok
  | err
  deriving DecidableEq, Repr

inductive LoopAction
  | breakMain
  | continueLoop
  deriving DecidableEq, Repr

/-- What the main loop does after handling the given command with the
given outcome: only `ProcessEvent` breaks the loop on error
(mod.rs:301-307); every other event handler logs the error and continues
(mod.rs:309-313, 417-436). -/
def run_loop_action : EventCommand → HandlerOutcome → LoopAction
  | .processEvent, .err => .breakMain
  | _, _ => .continueLoop

/-- Claim C6: an error from the `ProcessEvent` handler terminates the
controller loop; errors from `ProcessOutputEvent`, `WriteEvent`,
`WriteChordEvent`, `WriteSendEvent` and `HandleEvent` are logged and the
loop continues, as does every successful handler. -/
theorem C6_process_event_fatal :
    run_loop_action EventCommand.processEvent HandlerOutcome.err
        = LoopAction.breakMain ∧
    (∀ c : EventCommand, run_loop_action c HandlerOutcome.ok
        = LoopAction.continueLoop) ∧
    (∀ c : EventCommand, c ≠ EventCommand.processEvent →
      run_loop_action c HandlerOutcome.err = LoopAction.continueLoop) := by
  refine ⟨rfl, ?_, ?_⟩
  · intro c
    cases c <;> rfl
  · intro c hc
    cases c
    · exact absurd rfl hc
    all_goals rfl

theorem C6_witness :
    run_loop_action EventCommand.writeEvent HandlerOutcome.err
      = LoopAction.continueLoop :=
  C6_process_event_fatal.2.2 EventCommand.writeEvent (by decide)

/-! ### Device profile loading and translation
(mod.rs `load_device_profile_from_path`, `translate_event`,
`handle_event`)

`DeviceProfile::from_yaml_file`, `ProfileMapping::source_matches_properties`
and `InputValue::translate` live in the config and event modules outside
`src/`; they enter the embedding as data: the parse outcome is an
`Except` argument, the matcher is a boolean field, and each target event
carries its value translator, returning `none` when the translation
errors or yields `InputValue::None` (both are skipped by mod.rs
1237-1270). -/

structure ProfileMapping where
  name : String
  source_event : Capability
  matcher : NativeEvent → Bool
  target_events : List (Capability × (InputValue → Option InputValue))

structure DeviceProfile where
  name : String
  mapping : List ProfileMapping
  target_devices : Option (List String)

structure ProfileState where
  device_profile : Option String
  device_profile_config_map : List (Capability × List ProfileMapping)

/-- The `HashMap::get` operation on the profile map. -/
def profileMapGet (m : List (Capability × List ProfileMapping))
    (k : Capability) : Option (List ProfileMapping) :=
  (m.find? (fun p => decide (p.1 = k))).map Prod.snd

/-- The `entry(key).or_default().push(v)` pattern on the profile map
(mod.rs:1462-1467). -/
def profileMapPush (m : List (Capability × List ProfileMapping))
    (k : Capability) (v : ProfileMapping) :
    List (Capability × List ProfileMapping) :=
  match m with
  | [] => [(k, [v])]
  | p :: t =>
    if p.1 = k then (p.1, p.2 ++ [v]) :: t else p :: profileMapPush t k v

/-- Embedding of `CompositeDevice::load_device_profile_from_path` (mod.rs:1435-1482).
The YAML read/parse is external; its outcome is the `loaded` argument.
The map is cleared BEFORE the parse is attempted, so the `?` on a parse
error (mod.rs:1442) leaves the cleared map behind and also leaves
`device_profile` untouched.  The `SetTargetDevices` follow-up command is
queueing only and not part of this state. -/
def load_device_profile_from_path (s : ProfileState)
    (loaded : Except String DeviceProfile) :
    ProfileState × Except String Unit :=
  let cleared : ProfileState := { s with device_profile_config_map := [] }
  match loaded with
  | .error e => (cleared, .error e)
  | .ok profile =>
    ({ device_profile := some profile.name,
       device_profile_config_map :=
         profile.mapping.foldl
           (fun m mp => profileMapPush m mp.source_event mp) [] },
     .ok ())

/-- The `Command::GetProfileName` reply (mod.rs:401-406):
`device_profile.clone().unwrap_or_default()`. -/
def get_profile_name (s : ProfileState) : String :=
  s.device_profile.getD ""

/-- Embedding of `CompositeDevice::translate_event` (mod.rs:1204-1282). -/
def translate_event (s : ProfileState) (ev : NativeEvent) : List NativeEvent :=
  match profileMapGet s.device_profile_config_map ev.cap with
  | some mappings =>
    match mappings.find? (fun m => m.matcher ev) with
    | some mapping =>
      mapping.target_events.foldl
        (fun acc te =>
          match te.2 ev.value with
          | some v => acc ++ [⟨te.1, v⟩]
          | none => acc) []
    | none => [ev]
  | none => [ev]

/-- The profile-translation step of `CompositeDevice::handle_event`
(mod.rs:818-822): the translation branch is taken iff `device_profile`
is set. -/
def handle_event_translate (s : ProfileState) (ev : NativeEvent) :
    List NativeEvent :=
  if s.device_profile.isSome then translate_event s ev else [ev]

/-- Claim C7: loading a profile clears `device_profile_config_map` before
the parse/IO of the new profile, so a failed load replies with the error
and leaves the map empty — no mappings of any earlier load survive. -/
theorem C7_failed_load_clears_profile_map (s : ProfileState) (msg : String) :
    ((load_device_profile_from_path s (Except.error msg)).1).device_profile_config_map = [] ∧
    (load_device_profile_from_path s (Except.error msg)).2 = Except.error msg :=
  ⟨rfl, rfl⟩

/-- Claim C10: when a profile load fails after an earlier successful load
stored the name `nm`, `device_profile` still holds `nm` (the name is only
updated after a successful parse, mod.rs:1443), `GetProfileName` still
replies `nm`, and `handle_event` still takes the profile-translation
branch, which — with the now-empty map — passes the event through
unchanged. -/
theorem C10_profile_name_after_failed_load (nm : String)
    (m : List (Capability × List ProfileMapping)) (msg : String)
    (ev : NativeEvent) :
    ((load_device_profile_from_path ⟨some nm, m⟩ (Except.error msg)).1).device_profile = some nm ∧
    get_profile_name
        (load_device_profile_from_path ⟨some nm, m⟩ (Except.error msg)).1
      = nm ∧
    handle_event_translate
        (load_device_profile_from_path ⟨some nm, m⟩ (Except.error msg)).1 ev
      = [ev] :=
  ⟨rfl, rfl, rfl⟩

/-! ### The new-active filter (mod.rs `is_new_active_event`, 1495-1512) -/

/-- Embedding of `CompositeDevice::is_new_active_event`: updates `active_inputs` and
returns whether the event should keep being processed (`true`) or be
dropped (`false`).  The membership test (`active`) is computed once on
entry, as in the source. -/
def is_new_active_event (active_inputs : List Capability) (cap : Capability)
    (is_pressed : Bool) : List Capability × Bool :=
  let inputs1 :=
    if is_pressed ∧ cap ∉ active_inputs then active_inputs ++ [cap]
    else active_inputs
  if ¬is_pressed ∧ cap ∉ active_inputs then (inputs1, false)
  else if ¬is_pressed ∧ cap ∈ active_inputs then (lerase inputs1 cap, true)
  else (inputs1, true)

/-- Claim C8: a press of a capability not in `active_inputs` appends it
and processes; a release of a held capability removes it and processes; a
release of an absent capability is dropped (suppressing releases without
a prior press); a repeat press processes without changing the list (so
repeated presses never duplicate membership). -/
theorem C8_new_active_filter (l : List Capability) (cap : Capability) :
    (cap ∉ l → is_new_active_event l cap true = (l ++ [cap], true)) ∧
    (cap ∈ l → is_new_active_event l cap false = (lerase l cap, true)) ∧
    (cap ∉ l → is_new_active_event l cap false = (l, false)) ∧
    (cap ∈ l → is_new_active_event l cap true = (l, true)) := by
  refine ⟨?_, ?_, ?_, ?_⟩ <;> intro h <;>
    simp [is_new_active_event, h]

theorem C8_witness :
    is_new_active_event [] (Capability.keyboard 30) true
      = ([Capability.keyboard 30], true) :=
  (C8_new_active_filter [] (Capability.keyboard 30)).1 (by decide)

/-! ### Intercept state machine
(mod.rs `should_hold_intercept_input`, `is_intercept_event_single`,
`is_intercept_event_multi`, `set_intercept_activation`, and the
button-event path of `handle_event`) -/

structure InterceptState where
  intercept_mode : InterceptMode
  intercept_activation_caps : List Capability
  intercept_mode_target_cap : Capability
  intercept_active_inputs : List Capability
  active_inputs : List Capability
  deriving DecidableEq, Repr

/-- Modelled from the spec: `NativeEvent::pressed` (outside `src/`) is
"derived from its value (Bool(true), nonzero axis)" (§3). -/
def pressed : InputValue → Bool
  | .bool b => b
  | .axis2d x y => decide (x ≠ 0) || decide (y ≠ 0)
  | .axisF x => decide (x ≠ 0)
  | .nothing => false

/-- The capability classes routed through the new-active and intercept
filters by `handle_event` (mod.rs:843-891): keyboard keys, gamepad
buttons and mouse buttons; all other classes bypass both filters. -/
def isFilteredCap : Capability → Bool
  | .keyboard _ => true
  | .gamepad (.button _) => true
  | .mouse (.button _) => true
  | _ => false

/-- Embedding of `CompositeDevice::should_hold_intercept_input` (mod.rs:918-933). -/
def should_hold_intercept_input (s : InterceptState) (cap : Capability) : Bool :=
  match s.intercept_activation_caps.head? with
  | none => false
  | some first =>
    if s.intercept_active_inputs.isEmpty ∧ cap = first then true
    else if ¬s.intercept_active_inputs.isEmpty then true
    else false

/-- Embedding of `CompositeDevice::is_intercept_event_single` (mod.rs:1531-1587):
returns the new state, the chords written through
`write_chord_events`, and whether the event was consumed. -/
def is_intercept_event_single (s : InterceptState) (ev : NativeEvent)
    (isPressed intercept : Bool) :
    InterceptState × List (List NativeEvent) × Bool :=
  if intercept = true ∧ ev.cap ∈ s.intercept_activation_caps ∧ isPressed = true then
    if ev.cap ∈ s.intercept_active_inputs then (s, [], true)
    else
      ({ s with
          intercept_active_inputs := s.intercept_active_inputs ++ [ev.cap],
          intercept_mode := InterceptMode.modeAlways },
       [[⟨s.intercept_mode_target_cap, ev.value⟩]], true)
  else if ev.cap ∈ s.intercept_activation_caps ∧
      ev.cap ∈ s.intercept_active_inputs ∧ isPressed = false then
    ({ s with
        intercept_active_inputs := lerase s.intercept_active_inputs ev.cap,
        active_inputs :=
          if ev.cap ∈ s.active_inputs then lerase s.active_inputs ev.cap
          else s.active_inputs },
     [[⟨ev.cap, ev.value⟩]], true)
  else (s, [], false)

/-- Embedding of `CompositeDevice::is_intercept_event_multi` (mod.rs:1589-1675).  The
completion branch removes every activation capability from
`active_inputs` (the contains-guarded removal loop at mod.rs:1615-1621
equals an unguarded first-occurrence erase). -/
def is_intercept_event_multi (s : InterceptState) (ev : NativeEvent)
    (isPressed intercept : Bool) :
    InterceptState × List (List NativeEvent) × Bool :=
  if intercept = true ∧ ev.cap ∈ s.intercept_activation_caps then
    if isPressed = true ∧ should_hold_intercept_input s ev.cap = true then
      if ev.cap ∈ s.intercept_active_inputs then (s, [], true)
      else if (s.intercept_active_inputs ++ [ev.cap]).length ≠
          s.intercept_activation_caps.length then
        ({ s with
            intercept_active_inputs := s.intercept_active_inputs ++ [ev.cap] },
         [], true)
      else
        ({ s with
            active_inputs :=
              s.intercept_activation_caps.foldl
                (fun acc c => lerase acc c) s.active_inputs,
            intercept_active_inputs := [],
            intercept_mode := InterceptMode.modeAlways },
         [[⟨s.intercept_mode_target_cap, InputValue.bool true⟩,
           ⟨s.intercept_mode_target_cap, InputValue.bool false⟩]], true)
    else if isPressed = false then
      if ev.cap ∈ s.intercept_active_inputs then
        ({ s with
            intercept_active_inputs := lerase s.intercept_active_inputs ev.cap },
         [[⟨ev.cap, InputValue.bool true⟩, ⟨ev.cap, InputValue.bool false⟩]],
         true)
      else (s, [], false)
    else (s, [], false)
  else if ¬s.intercept_active_inputs.isEmpty ∧ isPressed = true then
    ({ s with intercept_active_inputs := [] },
     [(s.intercept_active_inputs ++ [ev.cap]).map
        (fun c => (⟨c, InputValue.bool true⟩ : NativeEvent))],
     true)
  else (s, [], false)

/-- Embedding of `CompositeDevice::is_intercept_event` (mod.rs:1514-1529): regime
dispatch on the number of activation capabilities. -/
def is_intercept_event (s : InterceptState) (ev : NativeEvent)
    (isPressed intercept : Bool) :
    InterceptState × List (List NativeEvent) × Bool :=
  if s.intercept_activation_caps.length = 1 then
    is_intercept_event_single s ev isPressed intercept
  else
    is_intercept_event_multi s ev isPressed intercept

/-- The filter chain of `handle_event` (mod.rs:837-891) for a single
inbound event: compute `intercept` from the mode, run the new-active
filter, and — when the event survives — the intercept filter.  Returns
the new state, the chords written, and the event iff it is still to be
emitted (`none` when a filter dropped or consumed it). -/
def eventStep (s : InterceptState) (ev : NativeEvent) :
    InterceptState × List (List NativeEvent) × Option NativeEvent :=
  if isFilteredCap ev.cap then
    let intercept := decide (s.intercept_mode = InterceptMode.modePass)
    let na := is_new_active_event s.active_inputs ev.cap (pressed ev.value)
    let s1 : InterceptState := { s with active_inputs := na.1 }
    if na.2 then
      let r := is_intercept_event s1 ev (pressed ev.value) intercept
      if r.2.2 then (r.1, r.2.1, none) else (r.1, r.2.1, some ev)
    else (s1, [], none)
  else (s, [], some ev)

/-- Embedding of `CompositeDevice::set_intercept_activation` (mod.rs:1484-1491):
replaces the chord and its synthesized output, touching nothing else. -/
def set_intercept_activation (s : InterceptState) (caps : List Capability)
    (target : Capability) : InterceptState :=
  { s with
      intercept_activation_caps := caps,
      intercept_mode_target_cap := target }

/-- The controller commands that touch the intercept machinery. -/
inductive ICmd
  | event (ev : NativeEvent)
  | setMode (m : InterceptMode)
  | setActivation (caps : List Capability) (target : Capability)

def iStep (s : InterceptState) : ICmd → InterceptState
  | .event ev => (eventStep s ev).1
  | .setMode m => { s with intercept_mode := m }
  | .setActivation caps target => set_intercept_activation s caps target

def iRun (s : InterceptState) (cmds : List ICmd) : InterceptState :=
  cmds.foldl iStep s

/-- Initial intercept state from `CompositeDevice::new`
(mod.rs:192,206-211). -/
def interceptInit : InterceptState :=
  { intercept_mode := InterceptMode.modeNone,
    intercept_activation_caps :=
      [Capability.gamepad (GamepadInput.button GamepadButton.guide)],
    intercept_mode_target_cap :=
      Capability.gamepad (GamepadInput.button GamepadButton.guide),
    intercept_active_inputs := [],
    active_inputs := [] }

def capGuide : Capability :=
  Capability.gamepad (GamepadInput.button GamepadButton.guide)

def capLB : Capability :=
  Capability.gamepad (GamepadInput.button GamepadButton.leftBumper)

def capRB : Capability :=
  Capability.gamepad (GamepadInput.button GamepadButton.rightBumper)

def capSouth : Capability :=
  Capability.gamepad (GamepadInput.button GamepadButton.south)

/-- Intercept state in `Pass` mode with the two-button chord
`[LeftBumper, RightBumper]` configured. -/
def c2Start : InterceptState :=
  { intercept_mode := InterceptMode.modePass,
    intercept_activation_caps := [capLB, capRB],
    intercept_mode_target_cap := capGuide,
    intercept_active_inputs := [],
    active_inputs := [] }

/-- State `c2Start` after a `LeftBumper` press was held as a partial match. -/
def c2Held : InterceptState :=
  { intercept_mode := InterceptMode.modePass,
    intercept_activation_caps := [capLB, capRB],
    intercept_mode_target_cap := capGuide,
    intercept_active_inputs := [capLB],
    active_inputs := [capLB] }

set_option maxRecDepth 4000 in
/-- Claim C2 (counterexample): with chord `[LeftBumper, RightBumper]` in
`Pass` mode, press `LeftBumper` (held as a partial match) and then the
unrelated `South` press.  The claim says the controller emits a
press+release chord for each held capability and continues processing
the intruding event; the code instead appends the intruder to the held
list, emits one chord of PRESS events `[LeftBumper press, South press]`
(no releases), and SWALLOWS the intruding event (it is never emitted). -/
theorem C2_counterexample :
    (eventStep (eventStep c2Start ⟨capLB, InputValue.bool true⟩).1
        ⟨capSouth, InputValue.bool true⟩).2.2 = none ∧
    (eventStep (eventStep c2Start ⟨capLB, InputValue.bool true⟩).1
        ⟨capSouth, InputValue.bool true⟩).2.1
      = [[⟨capLB, InputValue.bool true⟩, ⟨capSouth, InputValue.bool true⟩]] := by
  constructor
  · rfl
  · rfl

/-- Claim C2 (amended): in the multi-capability regime, when a press
arrives that does not qualify for the intercept chord (not an activation
capability under `Pass`) while some activation capabilities are held,
the controller appends the intruding capability to the held list, emits
a single chord consisting of a PRESS of each held capability (the
intruder included) in order, clears the partial-match state, and
swallows the intruding event; the releases arrive later as ordinary up
events. -/
theorem C2_amended (s : InterceptState) (cap : Capability) (v : InputValue)
    (intercept : Bool)
    (h1 : ¬(intercept = true ∧ cap ∈ s.intercept_activation_caps))
    (h2 : s.intercept_active_inputs ≠ []) :
    is_intercept_event_multi s ⟨cap, v⟩ true intercept =
      ({ s with intercept_active_inputs := [] },
       [(s.intercept_active_inputs ++ [cap]).map
          (fun c => (⟨c, InputValue.bool true⟩ : NativeEvent))],
       true) := by
  unfold is_intercept_event_multi
  rw [if_neg h1, if_pos]
  constructor
  · intro hE
    exact h2 (by simpa using hE)
  · rfl

theorem C2_amended_witness :
    is_intercept_event_multi c2Held ⟨capSouth, InputValue.bool true⟩ true true
      = ({ c2Held with intercept_active_inputs := [] },
         [[⟨capLB, InputValue.bool true⟩, ⟨capSouth, InputValue.bool true⟩]],
         true) :=
  C2_amended c2Held capSouth (InputValue.bool true) true (by decide) (by decide)

def isSetActivationB : ICmd → Bool
  | .setActivation _ _ => true
  | _ => false

/-- Well-formedness of the partial-match state: the held capabilities
are duplicate-free and each belongs to the configured activation
chord. -/
def interceptWF (s : InterceptState) : Prop :=
  s.intercept_active_inputs.Nodup ∧
  ∀ c ∈ s.intercept_active_inputs, c ∈ s.intercept_activation_caps

theorem nodup_append_singleton {α : Type} {l : List α} {a : α}
    (hnd : l.Nodup) (ha : a ∉ l) : (l ++ [a]).Nodup := by
  rw [List.nodup_append_comm]
  exact List.nodup_cons.mpr ⟨ha, hnd⟩

theorem length_le_of_nodup_subset [DecidableEq α] {l₁ l₂ : List α}
    (hnd : l₁.Nodup) (hsub : ∀ x ∈ l₁, x ∈ l₂) :
    l₁.length ≤ l₂.length := by
  have h1 : l₁.toFinset.card = l₁.length := List.toFinset_card_of_nodup hnd
  have h2 : l₁.toFinset ⊆ l₂.toFinset := by
    intro x hx
    rw [List.mem_toFinset] at hx ⊢
    exact hsub x hx
  calc l₁.length = l₁.toFinset.card := h1.symm
    _ ≤ l₂.toFinset.card := Finset.card_le_card h2
    _ ≤ l₂.length := l₂.toFinset_card_le

theorem interceptWF_single {s : InterceptState} (h : interceptWF s)
    (ev : NativeEvent) (isPressed intercept : Bool) :
    interceptWF (is_intercept_event_single s ev isPressed intercept).1 := by
  obtain ⟨hnd, hsub⟩ := h
  unfold is_intercept_event_single
  split_ifs with h1 h2 h3 h4
  · exact ⟨hnd, hsub⟩
  · refine ⟨nodup_append_singleton hnd h2, ?_⟩
    intro c hc
    rcases List.mem_append.mp hc with hc | hc
    · exact hsub c hc
    · rw [List.mem_singleton.mp hc]
      exact h1.2.1
  · refine ⟨nodup_lerase hnd, ?_⟩
    intro c hc
    exact hsub c (lerase_subset hc)
  · refine ⟨nodup_lerase hnd, ?_⟩
    intro c hc
    exact hsub c (lerase_subset hc)
  · exact ⟨hnd, hsub⟩

theorem interceptWF_multi {s : InterceptState} (h : interceptWF s)
    (ev : NativeEvent) (isPressed intercept : Bool) :
    interceptWF (is_intercept_event_multi s ev isPressed intercept).1 := by
  obtain ⟨hnd, hsub⟩ := h
  unfold is_intercept_event_multi
  split_ifs with h1 h2 h3 h4 h5 h6 h7
  · exact ⟨hnd, hsub⟩
  · refine ⟨nodup_append_singleton hnd h3, ?_⟩
    intro c hc
    rcases List.mem_append.mp hc with hc | hc
    · exact hsub c hc
    · rw [List.mem_singleton.mp hc]
      exact h1.2
  · exact ⟨List.nodup_nil, fun c hc => absurd hc (List.not_mem_nil c)⟩
  · refine ⟨nodup_lerase hnd, ?_⟩
    intro c hc
    exact hsub c (lerase_subset hc)
  · exact ⟨hnd, hsub⟩
  · exact ⟨hnd, hsub⟩
  · exact ⟨List.nodup_nil, fun c hc => absurd hc (List.not_mem_nil c)⟩
  · exact ⟨hnd, hsub⟩

theorem interceptWF_filter {s : InterceptState} (h : interceptWF s)
    (ev : NativeEvent) (isPressed intercept : Bool) :
    interceptWF (is_intercept_event s ev isPressed intercept).1 := by
  unfold is_intercept_event
  split_ifs
  · exact interceptWF_single h ev isPressed intercept
  · exact interceptWF_multi h ev isPressed intercept

theorem interceptWF_event {s : InterceptState} (h : interceptWF s)
    (ev : NativeEvent) : interceptWF (eventStep s ev).1 := by
  unfold eventStep
  split_ifs with hf
  · have h1 : interceptWF
        { s with active_inputs :=
            (is_new_active_event s.active_inputs ev.cap (pressed ev.value)).1 } :=
      ⟨h.1, h.2⟩
    by_cases hk :
        (is_new_active_event s.active_inputs ev.cap (pressed ev.value)).2 = true
    · simp only [hk, if_pos]
      by_cases hc : (is_intercept_event
          { s with active_inputs :=
              (is_new_active_event s.active_inputs ev.cap (pressed ev.value)).1 }
          ev (pressed ev.value)
          (decide (s.intercept_mode = InterceptMode.modePass))).2.2 = true
      · simp only [hc, if_pos]
        exact interceptWF_filter h1 ev (pressed ev.value) _
      · simp only [Bool.not_eq_true] at hc
        simp only [hc]
        exact interceptWF_filter h1 ev (pressed ev.value) _
    · simp only [Bool.not_eq_true] at hk
      simp only [hk]
      exact h1
  · exact h

theorem interceptWF_run {s : InterceptState} (h : interceptWF s)
    (cmds : List ICmd) (hc : ∀ c ∈ cmds, isSetActivationB c = false) :
    interceptWF (iRun s cmds) := by
  induction cmds generalizing s with
  | nil => exact h
  | cons c cs ih =>
    have hc0 := hc c (List.mem_cons_self c cs)
    have hstep : interceptWF (iStep s c) := by
      cases c with
      | event ev => exact interceptWF_event h ev
      | setMode m => exact ⟨h.1, h.2⟩
      | setActivation caps target => cases hc0
    exact ih hstep (fun c' hc' => hc c' (List.mem_cons_of_mem _ hc'))

set_option maxRecDepth 4000 in
/-- Claim C9 (counterexample): configure the three-button chord
`[LeftBumper, RightBumper, South]`, enter `Pass` mode, press
`LeftBumper` and `RightBumper` (both held as a partial match), then
replace the chord by the singleton `[Guide]` via
`SetInterceptActivation`.  The replacement does not clear
`intercept_active_inputs`, leaving 2 held capabilities against 1
configured, so `|intercept_active_inputs| ≤ |intercept_activation_caps|`
fails at this reachable state. -/
theorem C9_counterexample :
    ¬((iRun interceptInit
        [ICmd.setActivation [capLB, capRB, capSouth] capGuide,
         ICmd.setMode InterceptMode.modePass,
         ICmd.event ⟨capLB, InputValue.bool true⟩,
         ICmd.event ⟨capRB, InputValue.bool true⟩,
         ICmd.setActivation [capGuide] capGuide]).intercept_active_inputs.length ≤
      (iRun interceptInit
        [ICmd.setActivation [capLB, capRB, capSouth] capGuide,
         ICmd.setMode InterceptMode.modePass,
         ICmd.event ⟨capLB, InputValue.bool true⟩,
         ICmd.event ⟨capRB, InputValue.bool true⟩,
         ICmd.setActivation [capGuide] capGuide]).intercept_activation_caps.length) := by
  decide

/-- Claim C9 (amended): over any sequence of processed events and
`SetInterceptMode` commands — with `SetInterceptActivation` excluded —
the number of held capabilities in `intercept_active_inputs` never
exceeds the number of configured `intercept_activation_caps`.
`set_intercept_activation` replaces the chord without clearing the held
list, so interleaving it can break the bound. -/
theorem C9_amended (cmds : List ICmd)
    (h : ∀ c ∈ cmds, isSetActivationB c = false) :
    (iRun interceptInit cmds).intercept_active_inputs.length ≤
      (iRun interceptInit cmds).intercept_activation_caps.length := by
  have hwf : interceptWF (iRun interceptInit cmds) :=
    interceptWF_run ⟨List.nodup_nil, fun c hc => absurd hc (List.not_mem_nil c)⟩
      cmds h
  exact length_le_of_nodup_subset hwf.1 hwf.2

set_option maxRecDepth 4000 in
theorem C9_amended_witness :
    (∀ c ∈ [ICmd.setMode InterceptMode.modePass,
            ICmd.event ⟨capGuide, InputValue.bool true⟩],
      isSetActivationB c = false) ∧
    (iRun interceptInit
        [ICmd.setMode InterceptMode.modePass,
         ICmd.event ⟨capGuide, InputValue.bool true⟩]).intercept_active_inputs.length ≤
      (iRun interceptInit
        [ICmd.setMode InterceptMode.modePass,
         ICmd.event ⟨capGuide, InputValue.bool true⟩]).intercept_activation_caps.length :=
  ⟨by decide, C9_amended _ (by decide)⟩

/-! ### Source device registries
(mod.rs `add_source_device`, `run_source_devices`,
`on_source_device_removed`) -/

structure SourcesState where
  source_devices : List SourceId
  source_devices_discovered : List SourceId
  source_devices_blocked : List SourceId
  source_device_paths : List String
  source_devices_used : List SourceId
  deriving DecidableEq, Repr

/-- Embedding of `CompositeDevice::add_source_device` (mod.rs:1363-1432): records the
source in discovered/paths/used and, when the configuration marks it
blocked, in the blocked set.  Capability harvesting does not touch the
registries.  `SourceDevice::get_id`/`get_device_path` (outside `src/`)
are the scheme id and `devicePath` (spec §6).  `source_devices` (the
channel map) holds the ids of started sources; the channel values are
external. -/
def add_source_device (s : SourcesState) (id : SourceId) (blocked : Bool) :
    SourcesState :=
  { s with
      source_devices_discovered := s.source_devices_discovered ++ [id],
      source_device_paths := s.source_device_paths ++ [devicePath id],
      source_devices_used := s.source_devices_used ++ [id],
      source_devices_blocked :=
        if blocked ∧ id ∉ s.source_devices_blocked then
          s.source_devices_blocked ++ [id]
        else s.source_devices_blocked }

/-- Embedding of `CompositeDevice::run_source_devices` (mod.rs:528-581): drains
`source_devices_discovered`, skipping blocked sources and inserting the
rest into `source_devices`. -/
def run_source_devices (s : SourcesState) : SourcesState :=
  { s with
      source_devices_discovered := [],
      source_devices :=
        (s.source_devices_discovered.filter
            (fun d => decide (d ∉ s.source_devices_blocked))).foldl
          (fun acc d => if d ∈ acc then acc else acc ++ [d])
          s.source_devices }

/-- Embedding of `CompositeDevice::on_source_device_removed` (mod.rs:1303-1360): all
three scheme branches remove the derived path from
`source_device_paths`, the id from `source_devices_used` and from
`source_devices_blocked`.  `source_devices` is not touched. -/
def on_source_device_removed (s : SourcesState) (id : SourceId) :
    SourcesState :=
  { s with
      source_device_paths := lerase s.source_device_paths (devicePath id),
      source_devices_used := lerase s.source_devices_used id,
      source_devices_blocked := lerase s.source_devices_blocked id }

/-- The lifecycle commands of claim C4.  `SourceDeviceAdded` runs
`add_source_device` followed by `run_source_devices`
(mod.rs:1285-1300); `SourceDeviceStopped` and `SourceDeviceRemoved`
both run `on_source_device_removed` (mod.rs:359-384). -/
inductive SCmd
  | added (id : SourceId) (blocked : Bool)
  | stopped (id : SourceId)
  | removed (id : SourceId)
  deriving DecidableEq, Repr

def sCmdId : SCmd → SourceId
  | .added id _ => id
  | .stopped id => id
  | .removed id => id

def sStep (s : SourcesState) : SCmd → SourcesState
  | .added id b => run_source_devices (add_source_device s id b)
  | .stopped id => on_source_device_removed s id
  | .removed id => on_source_device_removed s id

def sRun (s : SourcesState) (cmds : List SCmd) : SourcesState :=
  cmds.foldl sStep s

def emptySources : SourcesState :=
  { source_devices := [], source_devices_discovered := [],
    source_devices_blocked := [], source_device_paths := [],
    source_devices_used := [] }

/-- Registry state after `CompositeDevice::new` (which adds the initial
source, mod.rs:241) and `run` (which starts the discovered sources,
mod.rs:273). -/
def sourcesInit (id : SourceId) (blocked : Bool) : SourcesState :=
  run_source_devices (add_source_device emptySources id blocked)

set_option maxRecDepth 2000 in
/-- Claim C4 (counterexample): create the device with the non-blocked
source `evdev://event0`, start it, then process
`SourceDeviceRemoved("evdev://event0")`.  The removal drops the source
from `source_devices_used` (and its path from `source_device_paths`) but
never removes it from `source_devices`, so afterwards the id is present
in `source_devices` yet absent from `source_devices_used` — the three
registries do not describe the same set. -/
theorem C4_counterexample :
    ¬(SourceId.evdev "event0" ∈
        (sRun (sourcesInit (SourceId.evdev "event0") false)
          [SCmd.removed (SourceId.evdev "event0")]).source_devices ↔
      SourceId.evdev "event0" ∈
        (sRun (sourcesInit (SourceId.evdev "event0") false)
          [SCmd.removed (SourceId.evdev "event0")]).source_devices_used) := by
  decide

def pathsAligned (s : SourcesState) : Prop :=
  s.source_device_paths = s.source_devices_used.map devicePath

theorem map_lerase_of_inj_on {α β : Type} [DecidableEq α] [DecidableEq β]
    (f : α → β) {l : List α} {a : α}
    (h : ∀ x ∈ l, f x = f a → x = a) :
    lerase (l.map f) (f a) = (lerase l a).map f := by
  induction l with
  | nil => rfl
  | cons b t ih =>
    by_cases hb : b = a
    · subst hb
      simp [lerase]
    · have hfb : f b ≠ f a := fun hEq => hb (h b (List.mem_cons_self b t) hEq)
      simp only [List.map_cons, lerase, if_neg hb, if_neg hfb]
      rw [ih (fun x hx hfx => h x (List.mem_cons_of_mem b hx) hfx)]

theorem pathsAligned_step {s : SourcesState} {ids : List SourceId}
    (hal : pathsAligned s)
    (hsub : ∀ x ∈ s.source_devices_used, x ∈ ids)
    (hinj : ∀ x ∈ ids, ∀ y ∈ ids, devicePath x = devicePath y → x = y)
    (c : SCmd) (hc : sCmdId c ∈ ids) :
    pathsAligned (sStep s c) ∧
    ∀ x ∈ (sStep s c).source_devices_used, x ∈ ids := by
  have hrm : ∀ id : SourceId, id ∈ ids →
      pathsAligned (on_source_device_removed s id) ∧
      ∀ x ∈ (on_source_device_removed s id).source_devices_used, x ∈ ids := by
    intro id hid
    constructor
    · show lerase s.source_device_paths (devicePath id)
        = (lerase s.source_devices_used id).map devicePath
      rw [hal, map_lerase_of_inj_on devicePath
        (fun x hx hfx => hinj x (hsub x hx) id hid hfx)]
    · intro x hx
      exact hsub x (lerase_subset hx)
  cases c with
  | added id b =>
    constructor
    · show s.source_device_paths ++ [devicePath id]
        = (s.source_devices_used ++ [id]).map devicePath
      rw [hal, List.map_append, List.map_singleton]
    · intro x hx
      rcases List.mem_append.mp hx with hx | hx
      · exact hsub x hx
      · rw [List.mem_singleton.mp hx]
        exact hc
  | stopped id => exact hrm id hc
  | removed id => exact hrm id hc

theorem pathsAligned_run {s : SourcesState} {ids : List SourceId}
    (hal : pathsAligned s)
    (hsub : ∀ x ∈ s.source_devices_used, x ∈ ids)
    (hinj : ∀ x ∈ ids, ∀ y ∈ ids, devicePath x = devicePath y → x = y)
    (cmds : List SCmd) (hcm : ∀ c ∈ cmds, sCmdId c ∈ ids) :
    pathsAligned (sRun s cmds) ∧
    ∀ x ∈ (sRun s cmds).source_devices_used, x ∈ ids := by
  induction cmds generalizing s with
  | nil => exact ⟨hal, hsub⟩
  | cons c cs ih =>
    have hstep := pathsAligned_step hal hsub hinj c
      (hcm c (List.mem_cons_self c cs))
    exact ih hstep.1 hstep.2 (fun c' hc' => hcm c' (List.mem_cons_of_mem _ hc'))

/-- Claim C4 (amended): after any sequence of source additions and
removals whose ids have pairwise-distinct derived device paths,
`source_devices_used` and `source_device_paths` describe the same set of
sources — the path list is exactly the image of the id list under the
path derivation.  `source_devices` is NOT kept in sync:
`on_source_device_removed` never removes the channel entry (and blocked
or not-yet-started sources never gain one), so after a removal the
channel map can contain a source absent from the other two
registries. -/
theorem C4_amended (id0 : SourceId) (b0 : Bool) (cmds : List SCmd)
    (ids : List SourceId) (hid0 : id0 ∈ ids)
    (hcm : ∀ c ∈ cmds, sCmdId c ∈ ids)
    (hinj : ∀ x ∈ ids, ∀ y ∈ ids, devicePath x = devicePath y → x = y) :
    (sRun (sourcesInit id0 b0) cmds).source_device_paths
      = (sRun (sourcesInit id0 b0) cmds).source_devices_used.map devicePath := by
  have hal : pathsAligned (sourcesInit id0 b0) := rfl
  have hsub : ∀ x ∈ (sourcesInit id0 b0).source_devices_used, x ∈ ids := by
    intro x hx
    rcases List.mem_singleton.mp hx with rfl
    exact hid0
  exact (pathsAligned_run hal hsub hinj cmds hcm).1

set_option maxRecDepth 2000 in
theorem C4_amended_witness :
    (SourceId.evdev "event0" ∈
        [SourceId.evdev "event0", SourceId.hidraw "hidraw0"]) ∧
    (∀ c ∈ [SCmd.added (SourceId.hidraw "hidraw0") false,
            SCmd.removed (SourceId.evdev "event0")],
      sCmdId c ∈ [SourceId.evdev "event0", SourceId.hidraw "hidraw0"]) ∧
    (∀ x ∈ [SourceId.evdev "event0", SourceId.hidraw "hidraw0"],
      ∀ y ∈ [SourceId.evdev "event0", SourceId.hidraw "hidraw0"],
        devicePath x = devicePath y → x = y) ∧
    (sRun (sourcesInit (SourceId.evdev "event0") false)
        [SCmd.added (SourceId.hidraw "hidraw0") false,
         SCmd.removed (SourceId.evdev "event0")]).source_device_paths
      = (sRun (sourcesInit (SourceId.evdev "event0") false)
          [SCmd.added (SourceId.hidraw "hidraw0") false,
           SCmd.removed (SourceId.evdev "event0")]).source_devices_used.map
          devicePath :=
  ⟨by decide, by decide, by decide,
   C4_amended (SourceId.evdev "event0") false
     [SCmd.added (SourceId.hidraw "hidraw0") false,
      SCmd.removed (SourceId.evdev "event0")]
     [SourceId.evdev "event0", SourceId.hidraw "hidraw0"]
     (by decide) (by decide) (by decide)⟩

end InputPlumber
